import Mathlib

/-!
Verification of the ingestion orchestrator of the `financial-data` repository.

The JavaScript sources are shallowly embedded as pure Lean functions:

* `fetchDataI`, `importerLoop`, `importerSymbol`, `importerRun`, `reconcile`,
  `processExchangeSafelyE`, `mainDriver` embed `src/importer.mjs` together with
  the driver loop of `src/fetch_stocks_AU.mjs` / `src/fetch_stocks_crypto.mjs`.
* `fetchDataA`, `aLoop` embed the per-symbol attempt of
  `src/fetch_stocks_all_exchanges.mjs`.
* `fetchDataP1`, `p1Loop`, `p1Symbol`, `p1Run`, `p1Finish`, `p1ProcessExchange`
  embed the crypto-rewrite variant `src/unnamed/part_001`.

External collaborators are modelled at their interface, following the spec's
scoping: the provider is an oracle `Nat → RawFetch` giving the raw response to
the n-th fetch call of a run, `Math.random()` is an oracle `Nat → ℚ` giving the
n-th draw (a real JS value lies in `[0,1)`), artifact storage is a list-backed
key/value store of file names, and the daily-bar series payload is abstracted
to its list of rows (`List Nat`), since no claim depends on CSV serialization.
Bounded `for` loops are translated as structurally recursive functions on the
number of remaining iterations, so every loop is total by construction.
Concurrent variants (`Promise.all` over `p-limit`-wrapped tasks) are embedded
as one admissible linearization: the tasks run one after another in catalog
order, each to completion; events are recorded in a trace.
-/

/-- A catalog record: the symbol plus opaque metadata (spread through
unmodified by the code, abstracted to one field). -/
structure Asset where
  symbol : String
  meta : Nat
deriving Repr, DecidableEq

/-- Terminal per-symbol result `{ symbol, status }` as returned by the
per-symbol code paths; statuses are the literal strings of the source. -/
structure SymbolResult where
  symbol : String
  status : String
deriving Repr, DecidableEq

/-- Raw provider response to one `yahooFinance.chart` call: either a result
object with its `quotes` array, or a thrown error carrying `message` and an
optional `response.status` code. -/
inductive RawFetch where
  | ok (quotes : List Nat)
  | err (msg : String) (statusCode : Option Nat)
deriving Repr, DecidableEq

/-- Does `pat` occur as a contiguous run of `cs`? -/
def charsInclude (pat : List Char) : List Char → Bool
  | [] => pat.isPrefixOf []
  | c :: rest => pat.isPrefixOf (c :: rest) || charsInclude pat rest

/-- JS `msg.includes(pat)`. -/
def strIncludes (msg pat : String) : Bool :=
  charsInclude pat.data msg.data

/-- JS `s.endsWith(pat)`. -/
def strEndsWith (s pat : String) : Bool :=
  pat.data.isSuffixOf s.data

/-- Artifact storage, keyed by file name (`path.join(outputDir, sym + ".csv")`). -/
abbrev Store := List (String × List Nat)

/-- `fs.writeFileSync`: overwrite-or-create the named file. -/
def Store.setFile (st : Store) (name : String) (contents : List Nat) : Store :=
  (st.filter (fun p => p.1 != name)) ++ [(name, contents)]

/-- `fs.existsSync`. -/
def Store.hasFile (st : Store) (name : String) : Bool :=
  st.any (fun p => p.1 == name)

/-- Read a file's contents, if present. -/
def Store.getFile (st : Store) (name : String) : Option (List Nat) :=
  (st.find? (fun p => p.1 == name)).map (·.2)

/-- Delete the named file. -/
def Store.removeFile (st : Store) (name : String) : Store :=
  st.filter (fun p => p.1 != name)

/-- `fs.renameSync old new` (overwrites a pre-existing `new`); the sources only
call it after an `existsSync(old)` check. -/
def Store.renameFile (st : Store) (oldName newName : String) : Store :=
  match st.getFile oldName with
  | some c => (st.removeFile oldName).setFile newName c
  | none => st

/-- `path.join(outputDir, sym + ".csv")`. -/
def artifactPath (outputDir symbol : String) : String :=
  outputDir ++ "/" ++ symbol ++ ".csv"

/-- Error classification of `src/importer.mjs` `fetchData` (catch block,
lines 39-55): not-found, rate-limit, or generic error. -/
def classifyError (msg : String) (statusCode : Option Nat) : String :=
  if strIncludes msg "No data found" || statusCode == some 404 then "404"
  else if strIncludes msg "Too Many Requests" || statusCode == some 429 then "rateLimited"
  else "error"

/-- Provider and entropy oracles for one run. `fetch n` is the raw response to
the n-th fetch call of the run; `rand n` is the n-th `Math.random()` draw. -/
structure Env where
  fetch : Nat → RawFetch
  rand : Nat → ℚ

/-- Run state threaded through `src/importer.mjs`: the artifact store, the log
of fetch calls issued (symbol per call, in order), the delays awaited (tagged
with the status that triggered each), and the `Math.random()` draw counter. -/
structure RState where
  store : Store
  calls : List String
  waits : List (String × ℚ)
  randCtr : Nat
deriving Repr, DecidableEq

/-- `src/importer.mjs` `fetchData` (lines 12-56): empty/missing quotes give
`noData`; a non-empty result writes the artifact and gives `success`; a thrown
error is classified by `classifyError`. -/
def fetchDataI (outputDir symbol : String) (raw : RawFetch) (store : Store) :
    SymbolResult × Store :=
  match raw with
  | .ok quotes =>
    if quotes.length == 0 then (⟨symbol, "noData"⟩, store)
    else (⟨symbol, "success"⟩, store.setFile (artifactPath outputDir symbol) quotes)
  | .err msg code => (⟨symbol, classifyError msg code⟩, store)

/-- The retry loop of `src/importer.mjs` `processExchangeSafely` (lines
75-95), structurally recursive on the number of remaining attempts (initially
3; the loop's wait computations do not read the attempt index). `success`
breaks with the status set; `rateLimited` waits `5000 + Math.random()*5000`;
`error` waits `2000 + Math.random()*2000`; any other status (`404`, `noData`)
falls through to the next iteration with no wait. -/
def importerLoop (env : Env) (outputDir symbol : String) :
    Nat → RState → Option String × RState
  | 0, s => (none, s)
  | fuel + 1, s =>
    let fd := fetchDataI outputDir symbol (env.fetch s.calls.length) s.store
    let s1 : RState := { s with store := fd.2, calls := s.calls ++ [symbol] }
    if fd.1.status == "success" then
      (some "success", s1)
    else if fd.1.status == "rateLimited" then
      let waitTime : ℚ := 5000 + env.rand s1.randCtr * 5000
      importerLoop env outputDir symbol fuel
        { s1 with waits := s1.waits ++ [("rateLimited", waitTime)],
                  randCtr := s1.randCtr + 1 }
    else if fd.1.status == "error" then
      let waitTime : ℚ := 2000 + env.rand s1.randCtr * 2000
      importerLoop env outputDir symbol fuel
        { s1 with waits := s1.waits ++ [("error", waitTime)],
                  randCtr := s1.randCtr + 1 }
    else
      importerLoop env outputDir symbol fuel s1

/-- One catalog record's processing in `src/importer.mjs` (lines 71-104):
run the retry loop from attempt 0, default the status to `failed` when the
loop set none, record the result, then await the randomized inter-symbol
delay `500 + Math.random()*1500`. -/
def importerSymbol (env : Env) (outputDir : String) (asset : Asset) (s : RState) :
    SymbolResult × RState :=
  let out := importerLoop env outputDir asset.symbol 3 s
  let status := match out.1 with
    | some v => v
    | none => "failed"
  (⟨asset.symbol, status⟩,
    { out.2 with
        waits := out.2.waits ++ [("interSymbol", 500 + env.rand out.2.randCtr * 1500)],
        randCtr := out.2.randCtr + 1 })

/-- The `for (const asset of assets)` loop of `processExchangeSafely`:
strictly sequential, one result pushed per catalog record, in order. -/
def importerRun (env : Env) (outputDir : String) :
    List Asset → RState → List SymbolResult × RState
  | [], s => ([], s)
  | a :: rest, s =>
    let r := importerSymbol env outputDir a s
    let rs := importerRun env outputDir rest r.2
    (r.1 :: rs.1, rs.2)

/-- The catalog reconciliation step of `src/importer.mjs` (lines 107-112),
identical in `src/fetch_stocks_all_exchanges.mjs` (lines 201-207): collect the
symbols whose result status is `'404'` and, if there are any, drop their
records and persist; otherwise leave the catalog untouched. -/
def reconcile (assets : List Asset) (results : List SymbolResult) : List Asset :=
  let removed := (results.filter (fun r => r.status == "404")).map (·.symbol)
  if removed.length != 0 then
    assets.filter (fun a => !(removed.contains a.symbol))
  else
    assets

/-- Outcome of reading one exchange's catalog file: absent, present but not
parseable by `JSON.parse` (which then throws), or a parsed record list. -/
inductive FileRead where
  | missing
  | malformed
  | contents (assets : List Asset)
deriving Repr, DecidableEq

/-- `path.join(BASE_DIR, "stocks_list_" + exchange + ".json")` of
`src/importer.mjs` with `BASE_DIR = path.join(".", "public")`. -/
def catalogPath (exchange : String) : String :=
  "public/stocks_list_" ++ exchange ++ ".json"

/-- `src/importer.mjs` `processExchangeSafely`, whole function: a missing
catalog file is skipped with an empty result list; a malformed one makes
`JSON.parse` throw, which nothing in the file catches (`Except.error`); a
parsed catalog is processed sequentially and then reconciled. Returns the
results, the post-run catalog, and the final run state. -/
def processExchangeSafelyE (env : Env) (disk : String → FileRead) (exchange : String)
    (s : RState) : Except Unit (List SymbolResult × List Asset × RState) :=
  match disk (catalogPath exchange) with
  | .missing => .ok ([], [], s)
  | .malformed => .error ()
  | .contents assets =>
    let out := importerRun env ("public/" ++ exchange) assets s
    .ok (out.1, reconcile assets out.1, out.2)

/-- The driver loop of `src/fetch_stocks_AU.mjs` / `src/fetch_stocks_crypto.mjs`
`main`: `await limit(() => processExchangeSafely(exchange))` for each exchange
in order (sequential, since each call is awaited before the next is queued).
There is no try/catch: an exception from `processExchangeSafely` rejects
`main`, so the loop stops and no later exchange is processed. Returns the
per-exchange results of the exchanges that completed, and whether `main` ran
to completion. -/
def mainDriver (env : Env) (disk : String → FileRead) :
    List String → RState → List (String × List SymbolResult) × Bool
  | [], _ => ([], true)
  | e :: rest, s =>
    match processExchangeSafelyE env disk e s with
    | .error _ => ([], false)
    | .ok (rs, _, s1) =>
      let out := mainDriver env disk rest s1
      ((e, rs) :: out.1, out.2)

/-- Run state for `src/fetch_stocks_all_exchanges.mjs`: artifact store, count
of fetch calls issued, and the (constant 2000 ms) delays awaited. -/
structure AState where
  store : Store
  calls : Nat
  waits : List Nat
deriving Repr, DecidableEq

/-- `src/fetch_stocks_all_exchanges.mjs` `fetchData` (lines 17-55): `noData`
or `success` like the importer, but in the catch block only
`error.response.status === 404` is classified (as `'404'`); every other error
is re-thrown for the retry loop (`Except.error`). -/
def fetchDataA (outputDir symbol : String) (raw : RawFetch) (store : Store) :
    Except (String × Option Nat) SymbolResult × Store :=
  match raw with
  | .ok quotes =>
    if quotes.length == 0 then (.ok ⟨symbol, "noData"⟩, store)
    else (.ok ⟨symbol, "success"⟩, store.setFile (artifactPath outputDir symbol) quotes)
  | .err msg code =>
    if code == some 404 then (.ok ⟨symbol, "404"⟩, store)
    else (.error (msg, code), store)

/-- The per-symbol attempt of `src/fetch_stocks_all_exchanges.mjs`
`processExchange` (lines 64-75): `return await fetchData(...)` inside try, so
any non-thrown result — `success`, `noData` or `'404'` — returns immediately;
a thrown error logs, waits 2000 ms and retries; after the loop, `failed`. -/
def aLoop (env : Env) (outputDir symbol : String) :
    Nat → AState → SymbolResult × AState
  | 0, s => (⟨symbol, "failed"⟩, s)
  | fuel + 1, s =>
    let raw := env.fetch s.calls
    let s1 : AState := { s with calls := s.calls + 1 }
    match fetchDataA outputDir symbol raw s1.store with
    | (.ok r, st) => (r, { s1 with store := st })
    | (.error _, st) =>
      aLoop env outputDir symbol fuel { s1 with store := st, waits := s1.waits ++ [2000] }

/-- Filesystem/provider events of a `src/unnamed/part_001` run, in execution
order. A `rename` event records whether the destination already existed at
the moment `fs.renameSync` ran. -/
inductive Ev where
  | fetch (symbol : String)
  | writeArtifact (name : String)
  | writeCatalog (name : String)
  | rename (oldName newName : String) (newExisted : Bool)
  | wait (ms : Nat)
deriving Repr, DecidableEq

/-- Run state of `src/unnamed/part_001` `processExchange`: the shared mutable
`assets` binding, the artifact store, the event trace, and the number of fetch
calls issued (indexing the provider oracle). -/
structure PState where
  assets : List Asset
  store : Store
  trace : List Ev
  calls : Nat
deriving Repr, DecidableEq

/-- Error classification of `src/unnamed/part_001` `fetchData` (catch block):
not-found on a `"No data found"` message or a 404 status code, otherwise a
generic `error` (there is no rate-limit branch in this variant). -/
def classifyErrorP1 (msg : String) (statusCode : Option Nat) : String :=
  if strIncludes msg "No data found" || statusCode == some 404 then "404"
  else "error"

/-- `src/unnamed/part_001` `fetchData` (lines 16-56), recording its fetch call
and any artifact write in the trace. -/
def fetchDataP1 (env : Env) (outputDir symbol : String) (s : PState) :
    SymbolResult × PState :=
  let raw := env.fetch s.calls
  let s0 : PState := { s with calls := s.calls + 1, trace := s.trace ++ [.fetch symbol] }
  match raw with
  | .ok quotes =>
    if quotes.length == 0 then (⟨symbol, "noData"⟩, s0)
    else (⟨symbol, "success"⟩,
      { s0 with store := s0.store.setFile (artifactPath outputDir symbol) quotes,
                trace := s0.trace ++ [.writeArtifact (artifactPath outputDir symbol)] })
  | .err msg code => (⟨symbol, classifyErrorP1 msg code⟩, s0)

/-- The per-symbol attempt of `src/unnamed/part_001` `processExchange` (lines
76-115), structurally recursive on the remaining attempts with the attempt
index carried alongside (the crypto rewrite is guarded by `attempt === 0`).
On a first-attempt `'404'` in crypto mode for a symbol without the `-USD`
suffix, one extra fetch of `symbol + "-USD"` is issued; if it succeeds, the
shared `assets` list is rewritten (drop the old symbol, push the record with
the new symbol), the catalog file is written, and an artifact under the old
name — if any — is renamed onto the new name with no check of the
destination. Every other non-success path logs and waits 2000 ms. Returns the
(possibly rewritten) symbol and the optional status. -/
def p1Loop (env : Env) (exchange fileName outputDir : String) (asset : Asset) :
    String → Nat → Nat → PState → (String × Option String) × PState
  | symbol, _, 0, s => ((symbol, none), s)
  | symbol, attempt, fuel + 1, s =>
    let fd := fetchDataP1 env outputDir symbol s
    if fd.1.status == "success" then
      ((symbol, some "success"), fd.2)
    else if exchange == "crypto" && attempt == 0 && fd.1.status == "404"
        && !(strEndsWith symbol "-USD") then
      let newSymbol := symbol ++ "-USD"
      let retry := fetchDataP1 env outputDir newSymbol fd.2
      if retry.1.status == "success" then
        let s2 := retry.2
        let newAssets := (s2.assets.filter (fun a => a.symbol != symbol))
          ++ [{ asset with symbol := newSymbol }]
        let s3 : PState := { s2 with assets := newAssets,
                                     trace := s2.trace ++ [.writeCatalog fileName] }
        let oldPath := artifactPath outputDir symbol
        let newPath := artifactPath outputDir newSymbol
        let s4 : PState :=
          if s3.store.hasFile oldPath then
            { s3 with store := s3.store.renameFile oldPath newPath,
                      trace := s3.trace ++ [.rename oldPath newPath (s3.store.hasFile newPath)] }
          else s3
        ((newSymbol, some "success"), s4)
      else
        p1Loop env exchange fileName outputDir asset symbol (attempt + 1) fuel
          { retry.2 with trace := retry.2.trace ++ [.wait 2000] }
    else
      p1Loop env exchange fileName outputDir asset symbol (attempt + 1) fuel
        { fd.2 with trace := fd.2.trace ++ [.wait 2000] }

/-- One catalog record's task in `src/unnamed/part_001` (the closure passed to
`limit`): run the attempt loop from attempt 0 with 3 attempts, then default
the status to `failed`. -/
def p1Symbol (env : Env) (exchange fileName outputDir : String) (asset : Asset)
    (s : PState) : SymbolResult × PState :=
  let out := p1Loop env exchange fileName outputDir asset asset.symbol 0 3 s
  match out.1.2 with
  | some v => (⟨out.1.1, v⟩, out.2)
  | none => (⟨out.1.1, "failed"⟩, out.2)

/-- `Promise.all(assets.map(asset => limit(...)))` of `src/unnamed/part_001`,
embedded as one admissible linearization: the tasks run one after another in
catalog order (the task list is built from the catalog as loaded; the shared
`assets` binding is threaded through the state). -/
def p1Run (env : Env) (exchange fileName outputDir : String) :
    List Asset → PState → List SymbolResult × PState
  | [], s => ([], s)
  | a :: rest, s =>
    let r := p1Symbol env exchange fileName outputDir a s
    let rs := p1Run env exchange fileName outputDir rest r.2
    (r.1 :: rs.1, rs.2)

/-- The final removal step of `src/unnamed/part_001` `processExchange` (lines
128-134): drop the records of `'404'` results and write the catalog, only when
there are any. -/
def p1Finish (fileName : String) (results : List SymbolResult) (s : PState) : PState :=
  let removed := (results.filter (fun r => r.status == "404")).map (·.symbol)
  if removed.length != 0 then
    { s with assets := s.assets.filter (fun a => !(removed.contains a.symbol)),
             trace := s.trace ++ [.writeCatalog fileName] }
  else s

/-- `src/unnamed/part_001` `processExchange` on a loaded catalog: run every
record's task, then the final removal step. -/
def p1ProcessExchange (env : Env) (exchange : String) (assets : List Asset)
    (store : Store) : List SymbolResult × PState :=
  let fileName := "stocks_list_" ++ exchange ++ ".json"
  let outputDir := exchange
  let out := p1Run env exchange fileName outputDir assets
    { assets := assets, store := store, trace := [], calls := 0 }
  (out.1, p1Finish fileName out.1 out.2)

/-- Is the event a catalog write? -/
def Ev.isWriteCatalog : Ev → Bool
  | .writeCatalog _ => true
  | _ => false

/-- Is the event a provider fetch call? -/
def Ev.isFetch : Ev → Bool
  | .fetch _ => true
  | _ => false

/-- Well-formedness of one recorded delay of the importer retry loop, as the
spec's backoff policy describes it: it is triggered by a rate-limit or a
transient error, it is strictly positive, and it lies in the outcome's window
(5000-10000 ms for rate limits, 2000-4000 ms for transient errors). -/
def waitTagged (p : String × ℚ) : Prop :=
  (p.1 = "rateLimited" ∨ p.1 = "error")
  ∧ 0 < p.2
  ∧ (p.1 = "rateLimited" → 5000 ≤ p.2 ∧ p.2 < 10000)
  ∧ (p.1 = "error" → 2000 ≤ p.2 ∧ p.2 < 4000)

/-- Initial run state of `src/importer.mjs`. -/
def rInit : RState := { store := [], calls := [], waits := [], randCtr := 0 }

/-- Initial run state of `src/fetch_stocks_all_exchanges.mjs`. -/
def aInit : AState := { store := [], calls := 0, waits := [] }

/-- A provider that answers every fetch with an HTTP 404 error. -/
def env404 : Env := { fetch := fun _ => .err "Not Found" (some 404), rand := fun _ => 0 }

/-- A provider whose every call succeeds with an empty `quotes` array. -/
def envNoData : Env := { fetch := fun _ => .ok [], rand := fun _ => 0 }

/-- A provider answering 404, then a 429-style throttle, then 404. -/
def env5 : Env :=
  { fetch := fun n => if n == 1 then .err "Too Many Requests" none else .err "nf" (some 404),
    rand := fun _ => 0 }

/-- A provider that always throttles; `Math.random()` always draws 1/2. -/
def envW : Env := { fetch := fun _ => .err "Too Many Requests" none, rand := fun _ => 1/2 }

/-- A provider answering 404 for the first call and a one-row series for every
later call (drives the crypto `-USD` rewrite). -/
def envC3 : Env :=
  { fetch := fun n => if n == 0 then .err "" (some 404) else .ok [9], rand := fun _ => 0 }

/-- A crypto-exchange state whose catalog holds `XYZ` and whose artifact store
already has a file for `XYZ`. -/
def sC3 : PState :=
  { assets := [⟨"XYZ", 7⟩], store := [("crypto/XYZ.csv", [1, 2])], trace := [], calls := 0 }

/-- A provider answering 404 for the first call, then one-row series. -/
def envC6 : Env :=
  { fetch := fun n => if n == 0 then .err "" (some 404)
      else if n == 1 then .ok [5] else .ok [7],
    rand := fun _ => 0 }

/-- A disk whose `AU` catalog file is unparseable and whose other catalog
files parse to a one-record list. -/
def disk7 : String → FileRead := fun n =>
  if n = catalogPath "AU" then .malformed else .contents [⟨"A", 0⟩]

/-! ### General helper lemmas about the store and the loops -/

theorem find?_ext {α : Type} (p q : α → Bool) (h : ∀ a, p a = q a) :
    ∀ l : List α, l.find? p = l.find? q := by
  intro l
  induction l with
  | nil => rfl
  | cons a t ih => rw [List.find?_cons, List.find?_cons, h a, ih]

theorem any_ext {α : Type} (p q : α → Bool) (h : ∀ a, p a = q a) :
    ∀ l : List α, l.any p = l.any q := by
  intro l
  induction l with
  | nil => rfl
  | cons a t ih => rw [List.any_cons, List.any_cons, h a, ih]

theorem any_filter_ne {m n : String} (h : m ≠ n) (st : Store) :
    ((st.filter (fun p => p.1 != n)).any (fun p => p.1 == m)) = st.any (fun p => p.1 == m) := by
  rw [List.any_filter]
  refine any_ext _ _ ?_ st
  intro a
  by_cases ha : a.1 = m
  · subst ha
    simp [beq_false_of_ne, h]
  · simp [beq_false_of_ne ha]

theorem Store.getFile_setFile_self (st : Store) (n : String) (c : List Nat) :
    (st.setFile n c).getFile n = some c := by
  unfold Store.setFile Store.getFile
  rw [List.find?_append]
  have h1 : (st.filter (fun p => p.1 != n)).find? (fun p => p.1 == n) = none := by
    rw [List.find?_eq_none]
    intro x hx
    have hx2 := (List.mem_filter.mp hx).2
    simp only [bne_iff_ne, ne_eq] at hx2
    simp [hx2]
  rw [h1]
  simp [List.find?_cons]

theorem Store.getFile_setFile_ne (st : Store) {m n : String} (h : m ≠ n) (c : List Nat) :
    (st.setFile n c).getFile m = st.getFile m := by
  unfold Store.setFile Store.getFile
  rw [List.find?_append]
  have h2 : ([(n, c)].find? (fun p => p.1 == m)) = none := by
    simp [List.find?_cons, beq_false_of_ne (Ne.symm h)]
  rw [h2, List.find?_filter]
  rw [find?_ext _ (fun p => p.1 == m) ?_ st]
  · cases st.find? (fun p => p.1 == m) <;> rfl
  · intro a
    by_cases ha : a.1 = m
    · subst ha
      simp [beq_false_of_ne, h]
    · simp [beq_false_of_ne ha]

theorem Store.hasFile_setFile_self (st : Store) (n : String) (c : List Nat) :
    (st.setFile n c).hasFile n = true := by
  unfold Store.setFile Store.hasFile
  simp

theorem Store.hasFile_setFile_ne (st : Store) {m n : String} (h : m ≠ n) (c : List Nat) :
    (st.setFile n c).hasFile m = st.hasFile m := by
  unfold Store.setFile Store.hasFile
  rw [List.any_append]
  have h2 : [(n, c)].any (fun p => p.1 == m) = false := by
    simp [beq_false_of_ne (Ne.symm h)]
  rw [h2, Bool.or_false]
  exact any_filter_ne h st

theorem Store.getFile_removeFile_ne (st : Store) {m n : String} (h : m ≠ n) :
    (st.removeFile n).getFile m = st.getFile m := by
  unfold Store.removeFile Store.getFile
  rw [List.find?_filter]
  rw [find?_ext _ (fun p => p.1 == m) ?_ st]
  · intro a
    by_cases ha : a.1 = m
    · subst ha
      simp [beq_false_of_ne, h]
    · simp [beq_false_of_ne ha]

theorem Store.hasFile_removeFile_self (st : Store) (n : String) :
    (st.removeFile n).hasFile n = false := by
  unfold Store.removeFile Store.hasFile
  rw [List.any_eq_false]
  intro x hx
  have hx2 := (List.mem_filter.mp hx).2
  simp only [bne_iff_ne, ne_eq] at hx2
  simp [hx2]

theorem Store.hasFile_iff_getFile (st : Store) (n : String) :
    st.hasFile n = true ↔ ∃ c, st.getFile n = some c := by
  unfold Store.hasFile Store.getFile
  rw [List.any_eq_true]
  constructor
  · rintro ⟨x, hx, hbeq⟩
    have hfind : (st.find? (fun p => p.1 == n)).isSome = true := by
      rw [List.find?_isSome]
      exact ⟨x, hx, hbeq⟩
    obtain ⟨y, hy⟩ := Option.isSome_iff_exists.mp hfind
    exact ⟨y.2, by rw [hy]; rfl⟩
  · rintro ⟨c, hc⟩
    cases hfind : st.find? (fun p => p.1 == n) with
    | none => rw [hfind] at hc; simp at hc
    | some y =>
      have hp := List.find?_some hfind
      exact ⟨y, List.mem_of_find?_eq_some hfind, hp⟩

theorem Store.renameFile_spec (st : Store) {o n : String} (h : o ≠ n)
    (hex : st.hasFile o = true) :
    (st.renameFile o n).getFile n = st.getFile o
    ∧ (st.renameFile o n).hasFile o = false := by
  obtain ⟨c, hc⟩ := (Store.hasFile_iff_getFile st o).mp hex
  unfold Store.renameFile
  rw [hc]
  constructor
  · rw [Store.getFile_setFile_self]
  · rw [Store.hasFile_setFile_ne _ h, Store.hasFile_removeFile_self]

theorem importerLoop_calls_sub (env : Env) (o symbol : String) :
    ∀ fuel s c, c ∈ (importerLoop env o symbol fuel s).2.calls → c ∈ s.calls ∨ c = symbol := by
  intro fuel
  induction fuel with
  | zero =>
    intro s c hc
    simp only [importerLoop] at hc
    exact Or.inl hc
  | succ n ih =>
    intro s c hc
    rw [importerLoop] at hc
    dsimp only at hc
    split at hc
    · simp only at hc
      rcases List.mem_append.mp hc with h | h
      · exact Or.inl h
      · exact Or.inr (List.mem_singleton.mp h)
    · split at hc
      · rcases ih _ _ hc with h | h
        · rcases List.mem_append.mp h with h2 | h2
          · exact Or.inl h2
          · exact Or.inr (List.mem_singleton.mp h2)
        · exact Or.inr h
      · split at hc
        · rcases ih _ _ hc with h | h
          · rcases List.mem_append.mp h with h2 | h2
            · exact Or.inl h2
            · exact Or.inr (List.mem_singleton.mp h2)
          · exact Or.inr h
        · rcases ih _ _ hc with h | h
          · rcases List.mem_append.mp h with h2 | h2
            · exact Or.inl h2
            · exact Or.inr (List.mem_singleton.mp h2)
          · exact Or.inr h

theorem importerLoop_waits_mem (env : Env) (o symbol : String)
    (hr : ∀ n, 0 ≤ env.rand n ∧ env.rand n < 1) :
    ∀ fuel s, ∀ p ∈ (importerLoop env o symbol fuel s).2.waits, p ∈ s.waits ∨ waitTagged p := by
  intro fuel
  induction fuel with
  | zero => intro s p hp; exact Or.inl hp
  | succ n ih =>
    intro s p hp
    rw [importerLoop] at hp
    dsimp only at hp
    split at hp
    · exact Or.inl hp
    · split at hp
      · rcases ih _ _ hp with h | h
        · rcases List.mem_append.mp h with h2 | h2
          · exact Or.inl h2
          · have hp2 : p = ("rateLimited", 5000 + env.rand s.randCtr * 5000) :=
              List.mem_singleton.mp h2
            subst hp2
            right
            unfold waitTagged
            dsimp only
            have h0 := (hr s.randCtr).1
            have h1 := (hr s.randCtr).2
            refine ⟨Or.inl rfl, by nlinarith, fun _ => ⟨by nlinarith, by nlinarith⟩,
              fun hcon => absurd hcon (by decide)⟩
        · exact Or.inr h
      · split at hp
        · rcases ih _ _ hp with h | h
          · rcases List.mem_append.mp h with h2 | h2
            · exact Or.inl h2
            · have hp2 : p = ("error", 2000 + env.rand s.randCtr * 2000) :=
                List.mem_singleton.mp h2
              subst hp2
              right
              unfold waitTagged
              dsimp only
              have h0 := (hr s.randCtr).1
              have h1 := (hr s.randCtr).2
              refine ⟨Or.inr rfl, by nlinarith, fun hcon => absurd hcon (by decide),
                fun _ => ⟨by nlinarith, by nlinarith⟩⟩
          · exact Or.inr h
        · rcases ih _ _ hp with h | h
          · exact Or.inl h
          · exact Or.inr h

theorem importerLoop_calls_length (env : Env) (o symbol : String) :
    ∀ fuel s, (importerLoop env o symbol fuel s).2.calls.length ≤ s.calls.length + fuel := by
  intro fuel
  induction fuel with
  | zero => intro s; simp [importerLoop]
  | succ n ih =>
    intro s
    rw [importerLoop]
    dsimp only
    split
    · simp
    · split
      · refine le_trans (ih _) ?_
        simp only [List.length_append, List.length_singleton]
        omega
      · split
        · refine le_trans (ih _) ?_
          simp only [List.length_append, List.length_singleton]
          omega
        · refine le_trans (ih _) ?_
          simp only [List.length_append, List.length_singleton]
          omega

theorem aLoop_calls_le (env : Env) (o symbol : String) :
    ∀ fuel s, (aLoop env o symbol fuel s).2.calls ≤ s.calls + fuel := by
  intro fuel
  induction fuel with
  | zero => intro s; simp [aLoop]
  | succ n ih =>
    intro s
    rw [aLoop]
    dsimp only
    split
    · dsimp only
      omega
    · refine le_trans (ih _) ?_
      dsimp only
      omega

theorem fetchDataP1_calls (env : Env) (o symbol : String) (s : PState) :
    (fetchDataP1 env o symbol s).2.calls = s.calls + 1 := by
  unfold fetchDataP1
  dsimp only
  split
  · split <;> rfl
  · rfl

theorem fetchDataP1_assets (env : Env) (o symbol : String) (s : PState) :
    (fetchDataP1 env o symbol s).2.assets = s.assets := by
  unfold fetchDataP1
  dsimp only
  split
  · split <;> rfl
  · rfl

theorem fetchDataP1_trace_mem (env : Env) (o symbol : String) (s : PState) :
    ∀ e ∈ (fetchDataP1 env o symbol s).2.trace,
      e ∈ s.trace ∨ e = .fetch symbol ∨ ∃ n, e = .writeArtifact n := by
  intro e he
  unfold fetchDataP1 at he
  dsimp only at he
  split at he
  · split at he
    · rcases List.mem_append.mp he with h | h
      · exact Or.inl h
      · exact Or.inr (Or.inl (List.mem_singleton.mp h))
    · dsimp only at he
      rcases List.mem_append.mp he with h | h
      · rcases List.mem_append.mp h with h2 | h2
        · exact Or.inl h2
        · exact Or.inr (Or.inl (List.mem_singleton.mp h2))
      · exact Or.inr (Or.inr ⟨_, List.mem_singleton.mp h⟩)
  · rcases List.mem_append.mp he with h | h
    · exact Or.inl h
    · exact Or.inr (Or.inl (List.mem_singleton.mp h))

theorem p1Loop_calls_le (env : Env) (exchange fileName o : String) (asset : Asset) :
    ∀ fuel symbol att s, att ≠ 0 →
      (p1Loop env exchange fileName o asset symbol att fuel s).2.calls ≤ s.calls + fuel := by
  intro fuel
  induction fuel with
  | zero => intro symbol att s _; simp [p1Loop]
  | succ n ih =>
    intro symbol att s hatt
    rw [p1Loop]
    dsimp only
    split
    · rw [fetchDataP1_calls]
      omega
    · split
      · next hcond =>
        exfalso
        simp only [Bool.and_eq_true] at hcond
        have h0 := hcond.1.1.2
        rw [beq_iff_eq] at h0
        exact hatt h0
      · refine le_trans (ih symbol (att + 1) _ (Nat.succ_ne_zero att)) ?_
        dsimp only
        rw [fetchDataP1_calls]
        omega

theorem p1Loop_calls_le_start (env : Env) (exchange fileName o : String) (asset : Asset) :
    ∀ fuel symbol s,
      (p1Loop env exchange fileName o asset symbol 0 fuel s).2.calls ≤ s.calls + fuel + 1 := by
  intro fuel symbol s
  cases fuel with
  | zero => simp [p1Loop]
  | succ n =>
    rw [p1Loop]
    dsimp only
    split
    · rw [fetchDataP1_calls]
      omega
    · split
      · split
        · dsimp only
          split
          · dsimp only
            rw [fetchDataP1_calls, fetchDataP1_calls]
            omega
          · dsimp only
            rw [fetchDataP1_calls, fetchDataP1_calls]
            omega
        · refine le_trans
            (p1Loop_calls_le env exchange fileName o asset n symbol 1 _ one_ne_zero) ?_
          dsimp only
          rw [fetchDataP1_calls, fetchDataP1_calls]
          omega
      · refine le_trans
          (p1Loop_calls_le env exchange fileName o asset n symbol 1 _ one_ne_zero) ?_
        dsimp only
        rw [fetchDataP1_calls]
        omega

theorem p1Loop_some_success (env : Env) (exchange fileName o : String) (asset : Asset) :
    ∀ fuel symbol att s v,
      (p1Loop env exchange fileName o asset symbol att fuel s).1.2 = some v → v = "success" := by
  intro fuel
  induction fuel with
  | zero =>
    intro symbol att s v h
    simp [p1Loop] at h
  | succ n ih =>
    intro symbol att s v h
    rw [p1Loop] at h
    dsimp only at h
    split at h
    · exact (Option.some_inj.mp h.symm).symm ▸ rfl
    · split at h
      · split at h
        · exact (Option.some_inj.mp h.symm).symm ▸ rfl
        · exact ih _ _ _ _ h
      · exact ih _ _ _ _ h

theorem p1Loop_no_catalog_write (env : Env) (exchange fileName o : String) (asset : Asset)
    (hX : exchange ≠ "crypto") :
    ∀ fuel symbol att s, ∀ e ∈ (p1Loop env exchange fileName o asset symbol att fuel s).2.trace,
      e ∈ s.trace ∨ ∀ f, e ≠ Ev.writeCatalog f := by
  intro fuel
  induction fuel with
  | zero => intro symbol att s e he; exact Or.inl he
  | succ n ih =>
    intro symbol att s e he
    rw [p1Loop] at he
    dsimp only at he
    split at he
    · rcases fetchDataP1_trace_mem env o symbol s e he with h | h | ⟨m, h⟩
      · exact Or.inl h
      · exact Or.inr (fun f => by rw [h]; intro hc; cases hc)
      · exact Or.inr (fun f => by rw [h]; intro hc; cases hc)
    · split at he
      · next hcond =>
        exfalso
        simp only [Bool.and_eq_true] at hcond
        have h0 := hcond.1.1.1
        rw [beq_iff_eq] at h0
        exact hX h0
      · rcases ih _ _ _ _ he with h | h
        · rcases List.mem_append.mp h with h2 | h2
          · rcases fetchDataP1_trace_mem env o symbol s e h2 with h3 | h3 | ⟨m, h3⟩
            · exact Or.inl h3
            · exact Or.inr (fun f => by rw [h3]; intro hc; cases hc)
            · exact Or.inr (fun f => by rw [h3]; intro hc; cases hc)
          · have h3 := List.mem_singleton.mp h2
            exact Or.inr (fun f => by rw [h3]; intro hc; cases hc)
        · exact Or.inr h

theorem p1Symbol_status_ne_404 (env : Env) (exchange fileName o : String) (asset : Asset)
    (s : PState) : (p1Symbol env exchange fileName o asset s).1.status ≠ "404" := by
  unfold p1Symbol
  dsimp only
  split
  · next v heq =>
    have hv := p1Loop_some_success env exchange fileName o asset 3 asset.symbol 0 s v heq
    subst hv
    simp
  · simp

theorem p1Symbol_snd (env : Env) (exchange fileName o : String) (asset : Asset) (s : PState) :
    (p1Symbol env exchange fileName o asset s).2
      = (p1Loop env exchange fileName o asset asset.symbol 0 3 s).2 := by
  unfold p1Symbol
  dsimp only
  split <;> rfl

theorem p1Run_status_ne_404 (env : Env) (exchange fileName o : String) :
    ∀ assets s, ∀ r ∈ (p1Run env exchange fileName o assets s).1, r.status ≠ "404" := by
  intro assets
  induction assets with
  | nil => intro s r hr; simp [p1Run] at hr
  | cons a rest ih =>
    intro s r hr
    rw [p1Run] at hr
    dsimp only at hr
    rcases List.mem_cons.mp hr with h | h
    · rw [h]
      exact p1Symbol_status_ne_404 env exchange fileName o a s
    · exact ih _ r h

theorem p1Run_no_catalog_write (env : Env) (exchange fileName o : String)
    (hX : exchange ≠ "crypto") :
    ∀ assets s, ∀ e ∈ (p1Run env exchange fileName o assets s).2.trace,
      e ∈ s.trace ∨ ∀ f, e ≠ Ev.writeCatalog f := by
  intro assets
  induction assets with
  | nil => intro s e he; exact Or.inl he
  | cons a rest ih =>
    intro s e he
    rw [p1Run] at he
    dsimp only at he
    rcases ih _ _ he with h | h
    · rw [p1Symbol_snd] at h
      exact p1Loop_no_catalog_write env exchange fileName o a hX 3 a.symbol 0 s e h
    · exact Or.inr h

theorem p1Finish_no404 (fileName : String) (results : List SymbolResult) (s : PState)
    (h : ∀ r ∈ results, r.status ≠ "404") :
    p1Finish fileName results s = s := by
  unfold p1Finish
  have hfil : results.filter (fun r => r.status == "404") = [] :=
    List.filter_eq_nil_iff.mpr (fun r hr => by simp [h r hr])
  simp [hfil]

/-! ### Claim theorems -/

/-- C1: the reconciliation step removes exactly the records whose symbol
appears in the results with status `'404'` (NotFound): a record is in the
post-run catalog iff it was in the pre-run catalog and no result reports its
symbol as NotFound. Holds for every catalog and every result list. -/
theorem reconcile_removes_exactly_notFound (assets : List Asset)
    (results : List SymbolResult) (a : Asset) :
    a ∈ reconcile assets results ↔
      a ∈ assets ∧ ¬ ∃ r, r ∈ results ∧ r.status = "404" ∧ r.symbol = a.symbol := by
  unfold reconcile
  by_cases hnil : (results.filter (fun r => r.status == "404")) = []
  · rw [hnil]
    have hno : ¬ ∃ r, r ∈ results ∧ r.status = "404" ∧ r.symbol = a.symbol := by
      rintro ⟨r, hr, hst, _⟩
      have := List.filter_eq_nil_iff.mp hnil r hr
      simp [hst] at this
    simp [hno]
  · have hlen : ((results.filter (fun r => r.status == "404")).map (·.symbol)).length ≠ 0 := by
      simp [List.length_eq_zero, hnil]
    simp only [bne_iff_ne, ne_eq, hlen, not_false_eq_true, if_true]
    rw [List.mem_filter]
    constructor
    · rintro ⟨ha, hb⟩
      refine ⟨ha, ?_⟩
      rintro ⟨r, hr, hst, hsym⟩
      have : a.symbol ∈ (results.filter (fun r => r.status == "404")).map (·.symbol) :=
        List.mem_map.mpr ⟨r, List.mem_filter.mpr ⟨hr, by simp [hst]⟩, hsym⟩
      simp [this] at hb
    · rintro ⟨ha, hno⟩
      refine ⟨ha, ?_⟩
      simp only [Bool.not_eq_true']
      by_contra hc
      simp only [Bool.not_eq_false] at hc
      have := List.elem_iff.mp hc
      obtain ⟨r, hrmem, hsym⟩ := List.mem_map.mp this
      obtain ⟨hr, hst⟩ := List.mem_filter.mp hrmem
      exact hno ⟨r, hr, by simpa using hst, hsym⟩

/-- C2: divergence witnessed at a symbol whose every provider response is an
HTTP 404. In `src/fetch_stocks_all_exchanges.mjs` the NotFound classification
is terminal, as the claim states: one fetch call, result status `'404'`. In
`src/importer.mjs` it is not: the loop silently retries the 404 twice more
(three fetch calls in total) and the terminal status is `'failed'`, never
`'404'`, so the claimed immediate `SymbolResult{symbol, NotFound}` return does
not happen — and the function's own `'404'` removal filter can never match. -/
theorem notFound_terminal_divergence :
    (aLoop env404 "AU" "S" 3 aInit).1 = ⟨"S", "404"⟩
  ∧ (aLoop env404 "AU" "S" 3 aInit).2.calls = 1
  ∧ (importerSymbol env404 "public/AU" ⟨"S", 0⟩ rInit).1 = ⟨"S", "failed"⟩
  ∧ (importerSymbol env404 "public/AU" ⟨"S", 0⟩ rInit).2.calls = ["S", "S", "S"] := by
  decide

/-- C8: a per-symbol attempt issues at most `maxAttempts = 3` provider fetch
calls in `src/importer.mjs` and `src/fetch_stocks_all_exchanges.mjs`, and at
most `3 + 1` in the crypto-rewrite variant `src/unnamed/part_001` (one extra
call for the `-USD` rewrite fallback) — for every provider behaviour. The
loops are structurally recursive, hence always terminate. -/
theorem attempt_fetch_call_bounds (env : Env) (exchange fileName o symbol : String)
    (asset : Asset) (s : RState) (t : AState) (p : PState) :
    ((importerLoop env o symbol 3 s).2.calls.length ≤ s.calls.length + 3)
  ∧ ((aLoop env o symbol 3 t).2.calls ≤ t.calls + 3)
  ∧ ((p1Loop env exchange fileName o asset asset.symbol 0 3 p).2.calls ≤ p.calls + 3 + 1) :=
  ⟨importerLoop_calls_length env o symbol 3 s, aLoop_calls_le env o symbol 3 t,
   p1Loop_calls_le_start env exchange fileName o asset 3 asset.symbol p⟩

/-- C10: `processExchangeSafely` in `src/importer.mjs` runs the per-symbol
attempts strictly one after another (the embedding is the sequential fold of
the source's `for await` loop) and returns exactly one terminal result per
catalog record, in catalog order; every fetch call is for a catalog symbol. -/
theorem importer_sequential_results (env : Env) (o : String) :
    ∀ (assets : List Asset) (s : RState),
      ((importerRun env o assets s).1.map (·.symbol) = assets.map (·.symbol))
    ∧ ((importerRun env o assets s).1.length = assets.length)
    ∧ (∀ c ∈ (importerRun env o assets s).2.calls, c ∈ s.calls ∨ c ∈ assets.map (·.symbol)) := by
  intro assets
  induction assets with
  | nil =>
    intro s
    exact ⟨rfl, rfl, fun c hc => Or.inl hc⟩
  | cons a rest ih =>
    intro s
    refine ⟨?_, ?_, ?_⟩
    · rw [importerRun]
      dsimp only
      rw [List.map_cons, List.map_cons]
      exact congrArg (a.symbol :: ·) (ih _).1
    · rw [importerRun]
      dsimp only
      rw [List.length_cons, List.length_cons]
      exact congrArg (· + 1) (ih _).2.1
    · intro c hc
      rw [importerRun] at hc
      dsimp only at hc
      rcases (ih _).2.2 c hc with h | h
      · rcases importerLoop_calls_sub env o a.symbol 3 s c h with h2 | h2
        · exact Or.inl h2
        · exact Or.inr (by rw [List.map_cons, h2]; exact List.mem_cons_self _ _)
      · exact Or.inr (by rw [List.map_cons]; exact List.mem_cons_of_mem _ h)

theorem importerLoop_noData (env : Env) (o symbol : String)
    (h : ∀ n, env.fetch n = .ok []) :
    ∀ fuel s, importerLoop env o symbol fuel s
      = (none, { s with calls := s.calls ++ List.replicate fuel symbol }) := by
  intro fuel
  induction fuel with
  | zero =>
    intro s
    simp [importerLoop]
  | succ n ih =>
    intro s
    rw [importerLoop]
    dsimp only
    rw [h]
    simp [fetchDataI, ih, List.replicate_succ, List.append_assoc]

/-- C4 (amended): a `NoData` outcome in `src/importer.mjs` is not terminal —
the loop silently retries it, with no wait, until the attempt budget is
exhausted, and the terminal status is `'failed'`; but as the claim states, no
artifact is written, no backoff wait is recorded, and the symbol's record
survives reconciliation unchanged. -/
theorem noData_amended (env : Env) (o : String) (asset : Asset) (s : RState)
    (h : ∀ n, env.fetch n = .ok []) :
    (importerSymbol env o asset s).1 = ⟨asset.symbol, "failed"⟩
  ∧ (importerSymbol env o asset s).2.store = s.store
  ∧ (importerSymbol env o asset s).2.calls
      = s.calls ++ [asset.symbol, asset.symbol, asset.symbol]
  ∧ (importerSymbol env o asset s).2.waits
      = s.waits ++ [("interSymbol", 500 + env.rand s.randCtr * 1500)]
  ∧ (∀ asts : List Asset, reconcile asts [(importerSymbol env o asset s).1] = asts) := by
  have hloop := importerLoop_noData env o asset.symbol h 3 s
  unfold importerSymbol
  rw [hloop]
  refine ⟨rfl, rfl, by simp [List.replicate], rfl, ?_⟩
  intro asts
  simp only [reconcile]
  simp
  intro hc
  exact absurd hc (by decide)

/-- C4 counterexample to the claim as stated: with every provider call
returning an empty series, the first call classifies as `noData`, yet the
attempt issues three fetch calls — it retries the `NoData` outcome instead of
treating it as terminal. -/
theorem noData_retried_counterexample :
    (fetchDataI "public/AU" "S" (envNoData.fetch 0) []).1.status = "noData"
  ∧ (importerLoop envNoData "public/AU" "S" 3 rInit).2.calls = ["S", "S", "S"]
  ∧ ¬ ((importerLoop envNoData "public/AU" "S" 3 rInit).2.calls.length ≤ 1) := by
  decide

theorem noData_amended_witness :
    (importerSymbol envNoData "public/AU" ⟨"S", 0⟩ rInit).1 = ⟨"S", "failed"⟩ :=
  (noData_amended envNoData "public/AU" ⟨"S", 0⟩ rInit (fun _ => rfl)).1

/-- C5 (amended): per-outcome behaviour of the `src/importer.mjs` retry loop.
A `rateLimited` outcome always records one wait `5000 + Math.random()*5000`
(strictly positive, in [5000, 10000)) before the next iteration — even after
the final attempt; an `error` outcome likewise records `2000 +
Math.random()*2000` (in [2000, 4000)); a `success` outcome returns at once
with no wait; a `404` or `noData` outcome records no wait but does not return
— the loop proceeds to the next fetch. Every wait the loop ever records is
one of these two tagged, strictly positive kinds. -/
theorem backoff_policy_per_outcome (env : Env) (o symbol : String) (fuel : Nat) (s : RState)
    (hr : ∀ n, 0 ≤ env.rand n ∧ env.rand n < 1) :
    ((fetchDataI o symbol (env.fetch s.calls.length) s.store).1.status = "success" →
       importerLoop env o symbol (fuel + 1) s
         = (some "success",
            { s with store := (fetchDataI o symbol (env.fetch s.calls.length) s.store).2,
                     calls := s.calls ++ [symbol] }))
  ∧ ((fetchDataI o symbol (env.fetch s.calls.length) s.store).1.status = "rateLimited" →
       importerLoop env o symbol (fuel + 1) s
         = importerLoop env o symbol fuel
             { s with store := (fetchDataI o symbol (env.fetch s.calls.length) s.store).2,
                      calls := s.calls ++ [symbol],
                      waits := s.waits ++ [("rateLimited", 5000 + env.rand s.randCtr * 5000)],
                      randCtr := s.randCtr + 1 }
       ∧ 0 < 5000 + env.rand s.randCtr * 5000
       ∧ 5000 ≤ 5000 + env.rand s.randCtr * 5000
       ∧ 5000 + env.rand s.randCtr * 5000 < 10000)
  ∧ ((fetchDataI o symbol (env.fetch s.calls.length) s.store).1.status = "error" →
       importerLoop env o symbol (fuel + 1) s
         = importerLoop env o symbol fuel
             { s with store := (fetchDataI o symbol (env.fetch s.calls.length) s.store).2,
                      calls := s.calls ++ [symbol],
                      waits := s.waits ++ [("error", 2000 + env.rand s.randCtr * 2000)],
                      randCtr := s.randCtr + 1 }
       ∧ 0 < 2000 + env.rand s.randCtr * 2000
       ∧ 2000 ≤ 2000 + env.rand s.randCtr * 2000
       ∧ 2000 + env.rand s.randCtr * 2000 < 4000)
  ∧ (((fetchDataI o symbol (env.fetch s.calls.length) s.store).1.status = "404"
       ∨ (fetchDataI o symbol (env.fetch s.calls.length) s.store).1.status = "noData") →
       importerLoop env o symbol (fuel + 1) s
         = importerLoop env o symbol fuel
             { s with store := (fetchDataI o symbol (env.fetch s.calls.length) s.store).2,
                      calls := s.calls ++ [symbol] })
  ∧ (∀ p ∈ (importerLoop env o symbol fuel s).2.waits, p ∈ s.waits ∨ waitTagged p) := by
  have h0 := (hr s.randCtr).1
  have h1 := (hr s.randCtr).2
  refine ⟨?_, ?_, ?_, ?_, importerLoop_waits_mem env o symbol hr fuel s⟩
  · intro h
    conv_lhs => rw [importerLoop]
    simp only [h, show (("success" : String) == "success") = true from by decide, if_true]
  · intro h
    refine ⟨?_, by nlinarith, by nlinarith, by nlinarith⟩
    conv_lhs => rw [importerLoop]
    simp only [h, show (("rateLimited" : String) == "success") = false from by decide,
      show (("rateLimited" : String) == "rateLimited") = true from by decide,
      Bool.false_eq_true, if_false, if_true]
  · intro h
    refine ⟨?_, by nlinarith, by nlinarith, by nlinarith⟩
    conv_lhs => rw [importerLoop]
    simp only [h, show (("error" : String) == "success") = false from by decide,
      show (("error" : String) == "rateLimited") = false from by decide,
      show (("error" : String) == "error") = true from by decide,
      Bool.false_eq_true, if_false, if_true]
  · intro h
    conv_lhs => rw [importerLoop]
    rcases h with h | h
    · simp only [h, show (("404" : String) == "success") = false from by decide,
        show (("404" : String) == "rateLimited") = false from by decide,
        show (("404" : String) == "error") = false from by decide,
        Bool.false_eq_true, if_false]
    · simp only [h, show (("noData" : String) == "success") = false from by decide,
        show (("noData" : String) == "rateLimited") = false from by decide,
        show (("noData" : String) == "error") = false from by decide,
        Bool.false_eq_true, if_false]

/-- C5 counterexample to the claim as stated: the first fetch classifies as
NotFound (`'404'`), yet the attempt does not return then — it keeps fetching,
and a (rate-limit) wait occurs before it finally returns, so "NotFound …
returns without any wait" fails on `src/importer.mjs`. -/
theorem notFound_wait_counterexample :
    (fetchDataI "public/AU" "S" (env5.fetch 0) []).1.status = "404"
  ∧ (importerLoop env5 "public/AU" "S" 3 rInit).1 = none
  ∧ (importerLoop env5 "public/AU" "S" 3 rInit).2.waits ≠ [] := by
  decide

theorem backoff_policy_per_outcome_witness :
    0 < 5000 + envW.rand rInit.randCtr * 5000 :=
  ((backoff_policy_per_outcome envW "public/AU" "S" 2 rInit
      (fun n => by constructor <;> norm_num [envW])).2.1 (by decide)).2.1

/-- C6 (amended): in `src/unnamed/part_001`, no terminal result ever carries
status `'404'`, so the final removal step never writes the catalog; for any
non-crypto exchange the catalog is never written at all during the run. (The
catalog writes that do occur are exactly those a successful crypto rewrite
performs inside its per-symbol attempt — see the counterexample, where such a
write precedes another symbol's fetch.) -/
theorem catalog_write_amended (env : Env) (exchange : String) (assets : List Asset)
    (store : Store) (hX : exchange ≠ "crypto") :
    (∀ f, Ev.writeCatalog f ∉ (p1ProcessExchange env exchange assets store).2.trace)
  ∧ (∀ r ∈ (p1ProcessExchange env exchange assets store).1, r.status ≠ "404") := by
  unfold p1ProcessExchange
  dsimp only
  have hres := p1Run_status_ne_404 env exchange ("stocks_list_" ++ exchange ++ ".json")
    exchange assets { assets := assets, store := store, trace := [], calls := 0 }
  rw [p1Finish_no404 _ _ _ hres]
  refine ⟨?_, hres⟩
  intro f hc
  rcases p1Run_no_catalog_write env exchange _ _ hX assets _ _ hc with h | h
  · simp at h
  · exact h f rfl

/-- C6 counterexample to the claim as stated: in a crypto run, a successful
`-USD` rewrite writes the catalog inside its per-symbol attempt, and a later
symbol's fetch call follows that write in the trace — the catalog is written
while attempts of the same exchange are still pending, and the write is not
the (never-firing) final removal step. -/
theorem catalog_write_mid_run_counterexample :
    (((p1ProcessExchange envC6 "crypto" [⟨"XYZ", 0⟩, ⟨"AAA", 1⟩] []).2.trace.dropWhile
        (fun e => !(e.isWriteCatalog))).any Ev.isFetch) = true
  ∧ Ev.writeCatalog "stocks_list_crypto.json"
      ∈ (p1ProcessExchange envC6 "crypto" [⟨"XYZ", 0⟩, ⟨"AAA", 1⟩] []).2.trace := by
  decide

theorem catalog_write_amended_witness :
    ((p1ProcessExchange env404 "AU" [⟨"S", 0⟩] []).2.trace.contains
        (Ev.writeCatalog "stocks_list_AU.json")) = false := by
  have h := (catalog_write_amended env404 "AU" [⟨"S", 0⟩] [] (by decide)).1 "stocks_list_AU.json"
  exact Bool.eq_false_iff.mpr (fun hc => h (List.elem_iff.mp hc))

/-- C7 (amended): a missing catalog file only skips its exchange, but a
catalog file that exists and fails to parse aborts the whole driver run —
`JSON.parse` throws, nothing catches, `main` rejects: the run does not
complete and no exchange after the malformed one (indeed none outside the
prefix already processed) appears in the output. -/
theorem malformed_catalog_aborts_run (env : Env) (disk : String → FileRead)
    (pre : List String) (e : String) (rest : List String) (s : RState)
    (hm : disk (catalogPath e) = .malformed) :
    (mainDriver env disk (pre ++ e :: rest) s).2 = false
  ∧ (∀ p ∈ (mainDriver env disk (pre ++ e :: rest) s).1, p.1 ∈ pre) := by
  induction pre generalizing s with
  | nil =>
    rw [List.nil_append, mainDriver]
    unfold processExchangeSafelyE
    rw [hm]
    exact ⟨rfl, fun p hp => absurd hp (List.not_mem_nil p)⟩
  | cons x xs ih =>
    rw [List.cons_append, mainDriver]
    cases hpx : processExchangeSafelyE env disk x s with
    | error u => exact ⟨rfl, fun p hp => absurd hp (List.not_mem_nil p)⟩
    | ok val =>
      obtain ⟨rs, cat, s1⟩ := val
      dsimp only
      refine ⟨(ih s1).1, ?_⟩
      intro p hp
      rcases List.mem_cons.mp hp with h | h
      · rw [h]
        exact List.mem_cons_self x xs
      · exact List.mem_cons_of_mem x ((ih s1).2 p h)

/-- C7 counterexample to the claim as stated: with the `AU` catalog record
malformed and the `US` one readable, the driver aborts at `AU` — `main` does
not complete and `US` is never processed, although the claim says processing
proceeds to the next configured exchange. -/
theorem parse_error_kills_later_exchanges :
    mainDriver envNoData disk7 ["AU", "US"] rInit = ([], false)
  ∧ disk7 (catalogPath "US") = .contents [⟨"A", 0⟩]
  ∧ ¬ ∃ rs, ("US", rs) ∈ (mainDriver envNoData disk7 ["AU", "US"] rInit).1 := by
  refine ⟨by decide, by decide, ?_⟩
  rintro ⟨rs, hmem⟩
  rw [show (mainDriver envNoData disk7 ["AU", "US"] rInit).1 = [] from by decide] at hmem
  exact absurd hmem (List.not_mem_nil _)

theorem malformed_catalog_aborts_run_witness :
    (mainDriver envNoData disk7 (["US"] ++ "AU" :: ["UK"]) rInit).2 = false :=
  (malformed_catalog_aborts_run envNoData disk7 ["US"] "AU" ["UK"] rInit (by decide)).1

theorem fetchDataP1_err (env : Env) (o symbol : String) (s : PState)
    (m : String) (c : Option Nat) (h : env.fetch s.calls = .err m c) :
    fetchDataP1 env o symbol s
      = (⟨symbol, classifyErrorP1 m c⟩,
         { s with calls := s.calls + 1, trace := s.trace ++ [.fetch symbol] }) := by
  unfold fetchDataP1
  rw [h]

theorem fetchDataP1_ok (env : Env) (o symbol : String) (s : PState)
    (qs : List Nat) (h : env.fetch s.calls = .ok qs) (hq : qs ≠ []) :
    fetchDataP1 env o symbol s
      = (⟨symbol, "success"⟩,
         { s with calls := s.calls + 1,
                  store := s.store.setFile (artifactPath o symbol) qs,
                  trace := (s.trace ++ [.fetch symbol])
                    ++ [.writeArtifact (artifactPath o symbol)] }) := by
  unfold fetchDataP1
  rw [h]
  dsimp only
  rw [show (qs.length == 0) = false from beq_eq_false_iff_ne.mpr
    (by simpa [List.length_eq_zero] using hq)]
  rfl

theorem append_usd_ne (t : String) : t ++ "-USD" ≠ t := by
  intro hcon
  have hlen := congrArg String.length hcon
  rw [String.length_append] at hlen
  have h4 : ("-USD" : String).length = 4 := rfl
  rw [h4] at hlen
  omega

theorem artifactPath_usd_ne (o sym : String) :
    artifactPath o sym ≠ artifactPath o (sym ++ "-USD") := by
  intro hcon
  have hlen := congrArg String.length hcon
  simp only [artifactPath, String.length_append] at hlen
  have h4 : ("-USD" : String).length = 4 := rfl
  rw [h4] at hlen
  omega

/-- C3 (amended): when the first crypto-mode fetch of a symbol without the
`-USD` suffix classifies as NotFound and the single rewrite fetch of
`symbol + "-USD"` succeeds, the attempt returns `Success` under the rewritten
symbol; the catalog as written carries the original record's metadata under
the new symbol and no record under the original symbol; and an artifact under
the old name, when one exists, is renamed onto the new name unconditionally —
the destination, just written by the successful rewrite fetch, is overwritten
by the old artifact (the recorded rename event carries `newExisted = true`);
only when no old artifact exists does the freshly fetched artifact survive. -/
theorem crypto_rewrite_amended (env : Env) (fileName o : String) (asset : Asset)
    (s : PState) (m : String) (c : Option Nat) (qs : List Nat)
    (h0 : env.fetch s.calls = .err m c)
    (hcl : classifyErrorP1 m c = "404")
    (hs : strEndsWith asset.symbol "-USD" = false)
    (h1 : env.fetch (s.calls + 1) = .ok qs)
    (hq : qs ≠ []) :
    (p1Symbol env "crypto" fileName o asset s).1
        = ⟨asset.symbol ++ "-USD", "success"⟩
  ∧ (⟨asset.symbol ++ "-USD", asset.meta⟩ : Asset)
        ∈ (p1Symbol env "crypto" fileName o asset s).2.assets
  ∧ (∀ b ∈ (p1Symbol env "crypto" fileName o asset s).2.assets, b.symbol ≠ asset.symbol)
  ∧ (s.store.hasFile (artifactPath o asset.symbol) = true →
       Ev.rename (artifactPath o asset.symbol) (artifactPath o (asset.symbol ++ "-USD")) true
           ∈ (p1Symbol env "crypto" fileName o asset s).2.trace
       ∧ (p1Symbol env "crypto" fileName o asset s).2.store.getFile
             (artifactPath o (asset.symbol ++ "-USD"))
           = s.store.getFile (artifactPath o asset.symbol)
       ∧ (p1Symbol env "crypto" fileName o asset s).2.store.hasFile
             (artifactPath o asset.symbol) = false)
  ∧ (s.store.hasFile (artifactPath o asset.symbol) = false →
       (p1Symbol env "crypto" fileName o asset s).2.store.getFile
           (artifactPath o (asset.symbol ++ "-USD")) = some qs) := by
  have hfd := fetchDataP1_err env o asset.symbol s m c h0
  have hretry := fetchDataP1_ok env o (asset.symbol ++ "-USD")
    { s with calls := s.calls + 1, trace := s.trace ++ [.fetch asset.symbol] } qs h1 hq
  have hpne := artifactPath_usd_ne o asset.symbol
  unfold p1Symbol
  rw [show (3 : Nat) = 2 + 1 from rfl, p1Loop]
  dsimp only
  rw [hfd]
  dsimp only
  rw [hcl]
  rw [hs]
  simp only [show (("404" : String) == "success") = false from by decide,
    show (("crypto" : String) == "crypto") = true from by decide,
    show ((0 : Nat) == 0) = true from by decide,
    show (("404" : String) == "404") = true from by decide,
    Bool.not_false, Bool.and_true, Bool.true_and, Bool.and_self,
    Bool.false_eq_true, if_false, if_true]
  rw [hretry]
  dsimp only
  simp only [show (("success" : String) == "success") = true from by decide, if_true]
  refine ⟨trivial, ?_, ?_, ?_, ?_⟩
  · rw [apply_ite PState.assets, ite_self]
    exact List.mem_append_right _ (List.mem_singleton.mpr rfl)
  · rw [apply_ite PState.assets, ite_self]
    intro b hb
    rcases List.mem_append.mp hb with h | h
    · exact bne_iff_ne.mp (List.mem_filter.mp h).2
    · rw [List.mem_singleton.mp h]
      exact append_usd_ne asset.symbol
  · intro hex
    rw [Store.hasFile_setFile_ne _ hpne, hex]
    have hex2 : (s.store.setFile (artifactPath o (asset.symbol ++ "-USD")) qs).hasFile
        (artifactPath o asset.symbol) = true := by
      rw [Store.hasFile_setFile_ne _ hpne]
      exact hex
    have hspec := Store.renameFile_spec
      (s.store.setFile (artifactPath o (asset.symbol ++ "-USD")) qs) hpne hex2
    simp only [eq_self_iff_true, if_true]
    refine ⟨?_, ?_, ?_⟩
    · rw [Store.hasFile_setFile_self]
      exact List.mem_append_right _ (List.mem_singleton.mpr rfl)
    · rw [hspec.1, Store.getFile_setFile_ne _ hpne]
    · exact hspec.2
  · intro hnex
    rw [Store.hasFile_setFile_ne _ hpne, hnex]
    simp only [Bool.false_eq_true, if_false]
    exact Store.getFile_setFile_self _ _ _

/-- C3 counterexample to the claim as stated: crypto symbol `XYZ` with an
existing `XYZ.csv` artifact; the provider 404s `XYZ` and succeeds for
`XYZ-USD` with series `[9]`. The rename runs although an artifact already
exists under the new name (the recorded event carries `newExisted = true` —
the claim requires renames only when none exists), and the old artifact
`[1, 2]` overwrites the freshly fetched `[9]`. -/
theorem rewrite_rename_overwrites_counterexample :
    Ev.rename "crypto/XYZ.csv" "crypto/XYZ-USD.csv" true
        ∈ (p1Symbol envC3 "crypto" "stocks_list_crypto.json" "crypto" ⟨"XYZ", 7⟩ sC3).2.trace
  ∧ (p1Symbol envC3 "crypto" "stocks_list_crypto.json" "crypto" ⟨"XYZ", 7⟩ sC3).2.store.getFile
        "crypto/XYZ-USD.csv" = some [1, 2]
  ∧ ¬ ((p1Symbol envC3 "crypto" "stocks_list_crypto.json" "crypto" ⟨"XYZ", 7⟩ sC3).2.store.getFile
        "crypto/XYZ-USD.csv" = some [9]) := by
  decide

theorem crypto_rewrite_amended_witness :
    (p1Symbol envC3 "crypto" "stocks_list_crypto.json" "crypto" ⟨"XYZ", 7⟩ sC3).1
      = ⟨"XYZ" ++ "-USD", "success"⟩ :=
  (crypto_rewrite_amended envC3 "stocks_list_crypto.json" "crypto" ⟨"XYZ", 7⟩ sC3 "" (some 404)
    [9] (by decide) (by decide) (by decide) (by decide) (by decide)).1
